import Mathlib

/-!
Verification of the pa11y-dashboard-noMongo persistence and reconciliation layer.

This file gives a shallow embedding, in Lean 4, of the client-side persistence
layer (`Pa11yPersistence`, IndexedDB-backed), the list-page reconciliation
(`syncFromDOM`, `loadPersistedTasks`), the run manager (`runTask` /
`countIssues`), the edit manager (prepopulate / submit), the export/import
utility (`collectData`, import of a parsed document), and the in-memory
webservice (`transformResult`, `taskApi.remove`, delete-POST route) of the
repository, together with theorems settling the specification claims.

JavaScript objects whose field schema is fixed by the code are embedded as Lean
structures with `Option` fields standing for possibly-absent / `undefined`
properties.  IndexedDB object stores (keyed by `id`) are embedded as lists of
records with upsert-by-key (`putTask` / `putResult`); an IndexedDB transaction
is atomic, which `deleteTaskTx` models with an explicit success flag.
JavaScript string `.trim()` and the `/[\r\n]+/`-split pipelines are embedded as
character-list functions (`jsTrim`, `splitLinesRaw`).
-/

namespace Pa11y

/-- Characters treated as whitespace by JavaScript `String.prototype.trim`
(restricted to the ASCII whitespace actually occurring in form input). -/
def isWsChar (c : Char) : Bool :=
  c = ' ' || c = '\t' || c = '\n' || c = '\r'

/-- Trim leading and trailing whitespace from a character list
(model of JavaScript `.trim()`). -/
def trimChars (cs : List Char) : List Char :=
  ((cs.dropWhile isWsChar).reverse.dropWhile isWsChar).reverse

/-- Model of JavaScript `s.trim()`. -/
def jsTrim (s : String) : String :=
  String.mk (trimChars s.data)

/-- Split a string at every newline or carriage-return character.  Composed
with per-line processing that drops empty / colon-less lines this is
equivalent to the JavaScript `split(/[\r\n]+/)` used by the edit manager
(a run of separators there yields no extra non-empty line either). -/
def splitLinesRaw (s : String) : List (List Char) :=
  s.data.splitOnP (fun c => c = '\n' || c = '\r')

/-- Model of `Array.prototype.join('\n')`. -/
def joinLines : List String → String
  | [] => ""
  | [x] => x
  | x :: xs => x ++ "\n" ++ joinLines xs

/-- Split a header line at its first `':'` (the `line.indexOf(':')` slice in
the edit manager); `none` when the line has no colon. -/
def splitAtColon : List Char → Option (List Char × List Char)
  | [] => none
  | c :: rest =>
      if c = ':' then some ([], rest)
      else (splitAtColon rest).map (fun p => (c :: p.1, p.2))

/-- JavaScript object property assignment `obj[k] = v` on a string-keyed
object embedded as an association list: an existing key keeps its position
and gets the new value, a new key is appended. -/
def objSet : List (String × String) → String → String → List (String × String)
  | [], k, v => [(k, v)]
  | (k', v') :: rest, k, v =>
      if k' = k then (k, v) :: rest else (k', v') :: objSet rest k v

/-- The `{error, warning, notice}` tally object of a Result. -/
structure Counts where
  error : Nat
  warning : Nat
  notice : Nat
deriving DecidableEq

/-- The denormalised `last_result` summary stored on a Task.  The summary
written by `syncFromDOM` has no `id` property; the one written by the run
manager does, hence `id : Option String`. -/
structure LastResult where
  id : Option String
  date : String
  count : Counts
deriving DecidableEq

/-- One engine issue (`{code, type, message, context, selector}`).  The
`type` field is kept as a raw string: the code never validates it. -/
structure Issue where
  code : String
  type : String
  message : String
  context : String
  selector : String
deriving DecidableEq

/-- A Task record as stored in the Durable (IndexedDB) store.  `Option`
fields are properties that may be absent or `undefined` on the stored
object; `id`, `name`, `url`, `standard` are present on every record the
code writes. -/
structure Task where
  id : String
  name : String
  url : String
  standard : String
  ignore : Option (List String) := none
  timeout : Option String := none
  wait : Option String := none
  actions : Option (List String) := none
  username : Option String := none
  password : Option String := none
  headers : Option (List (String × String)) := none
  hideElements : Option String := none
  last_result : Option LastResult := none
deriving DecidableEq

/-- A Result record (`{id, task, url, name, standard, date, count, results,
ignore}`) as constructed by the run manager and the in-memory webservice. -/
structure Result where
  id : String
  task : String
  url : String
  name : String
  standard : String
  date : String
  count : Counts
  results : List Issue
  ignore : List String
deriving DecidableEq

/-- The Durable Client Store: the two IndexedDB object stores `tasks` and
`results`, each keyed by the record's `id` property. -/
structure Store where
  tasks : List Task
  results : List Result
deriving DecidableEq

/-- IndexedDB `put` on the `tasks` object store (keyPath `id`): replace the
record with the same key, or add the record.  Keys are unique in an object
store, so replacing the first match is exact. -/
def putTask : List Task → Task → List Task
  | [], t => [t]
  | u :: us, t => if u.id = t.id then t :: us else u :: putTask us t

/-- IndexedDB `put` on the `results` object store (keyPath `id`). -/
def putResult : List Result → Result → List Result
  | [], r => [r]
  | u :: us, r => if u.id = r.id then r :: us else u :: putResult us r

/-- `Pa11yPersistence.saveTask`: upsert the task by `id`. -/
def saveTask (s : Store) (t : Task) : Store :=
  { s with tasks := putTask s.tasks t }

/-- `Pa11yPersistence.saveResult`: upsert the result by `id`. -/
def saveResult (s : Store) (r : Result) : Store :=
  { s with results := putResult s.results r }

/-- `Pa11yPersistence.getTask`: the record with that key, or `none`
(`undefined`). -/
def getTask (s : Store) (id : String) : Option Task :=
  s.tasks.find? (fun t => t.id = id)

/-- `Pa11yPersistence.getTasks`: all task records. -/
def getTasks (s : Store) : List Task :=
  s.tasks

/-- `Pa11yPersistence.getResultsByTask`: cursor over the `results` store
keeping every record whose `task` property equals the given id. -/
def getResultsByTask (s : Store) (taskId : String) : List Result :=
  s.results.filter (fun r => r.task = taskId)

/-- The two deletions performed inside `Pa11yPersistence.deleteTask`'s single
read-write transaction over `['tasks', 'results']`: delete the task record
with the given key, and (via a cursor) every result whose `task` property
equals the id. -/
def deleteTaskOps (s : Store) (id : String) : Store :=
  { tasks := s.tasks.filter (fun t => ¬ t.id = id),
    results := s.results.filter (fun r => ¬ r.task = id) }

/-- `Pa11yPersistence.deleteTask`: both deletions run in one IndexedDB
transaction, which commits as a whole or aborts leaving both object stores
untouched.  `txOk` models whether the transaction completes; the returned
flag is whether the promise resolved. -/
def deleteTaskTx (txOk : Bool) (s : Store) (id : String) : Store × Bool :=
  if txOk then (deleteTaskOps s id, true) else (s, false)

/-! ## List-page reconciliation (`syncFromDOM`, tasks-sync script) -/

/-- The `last_result` summary read from a rendered card's stat widgets:
the `last-run` date text and the three parsed stat numbers
(`parseInt(..., 10) || 0`). -/
structure DomStats where
  date : String
  error : Nat
  warning : Nat
  notice : Nat
deriving DecidableEq

/-- One task record extracted from a rendered
`li[data-role="task"]` card: the `data-task-id` attribute and the trimmed
name / url / standard texts (the standard already stripped of the
wrapping parentheses), plus the stat summary when all four stat/date
widgets were present on the card. -/
structure DomTask where
  id : String
  name : String
  url : String
  standard : String
  stats : Option DomStats
deriving DecidableEq

/-- The `last_result` object `syncFromDOM` builds from the stat widgets
(`{date, count: {error, warning, notice}}`, no `id` property). -/
def domToLastResult (st : DomStats) : LastResult :=
  { id := none, date := st.date,
    count := { error := st.error, warning := st.warning, notice := st.notice } }

/-- The object `syncFromDOM` stores in `domTasks[id]`: `{id, name, url,
standard}` plus `last_result` when the stat widgets were present. -/
def domTaskRecord (d : DomTask) : Task :=
  { id := d.id, name := d.name, url := d.url, standard := d.standard,
    last_result := d.stats.map domToLastResult }

/-- `Object.assign({}, existing || {}, domTasks[id])` specialised to the task
field schema: the DOM task always carries (and therefore overwrites) `id`,
`name`, `url` and `standard`, carries `last_result` exactly when the stat
widgets were present, and carries no other field, so every other property of
the existing record is preserved. -/
def mergeTask (existing : Option Task) (d : DomTask) : Task :=
  match existing with
  | none => domTaskRecord d
  | some e =>
      { e with
        id := d.id, name := d.name, url := d.url, standard := d.standard,
        last_result :=
          match d.stats with
          | some st => some (domToLastResult st)
          | none => e.last_result }

/-- Assignment `domTasks[id] = task` on the id-keyed `domTasks` object:
an id seen before keeps its position and gets the newer card's record
(JavaScript object key semantics). -/
def upsertDom : List DomTask → DomTask → List DomTask
  | [], d => [d]
  | x :: xs, d => if x.id = d.id then d :: xs else x :: upsertDom xs d

/-- Building the `domTasks` object by iterating the rendered cards. -/
def dedupeDomTasks (ds : List DomTask) : List DomTask :=
  ds.foldl upsertDom []

/-- The save/merge phase of `syncFromDOM`: for every extracted id, read the
existing Durable record and write back the `Object.assign` merge.  The ids
are pairwise distinct (object keys), so folding the independent
read-then-write pairs sequentially is faithful to the awaited
`Promise.all`. -/
def savePhase (s : Store) (doms : List DomTask) : Store :=
  doms.foldl (fun acc d => saveTask acc (mergeTask (getTask acc d.id) d)) s

/-- The conditional delete phase of `syncFromDOM`: cascade-delete each of the
given task ids. -/
def deletePhase (s : Store) (ids : List String) : Store :=
  ids.foldl deleteTaskOps s

/-- The `domTasks` object of `syncFromDOM`: the rendered cards with an empty
`data-task-id` skipped, keyed by id. -/
def syncDom (doms : List DomTask) : List DomTask :=
  dedupeDomTasks (doms.filter (fun d => ¬ d.id = ""))

/-- The ids `syncFromDOM`'s delete phase acts on: every stored task whose id
does not appear in the `domTasks` object
(`storedTasks.filter(t => !domTasks[t.id])`). -/
def syncDeleteIds (s1 : Store) (dom : List DomTask) : List String :=
  ((getTasks s1).filter (fun t => ¬ dom.any (fun d => d.id = t.id))).map Task.id

/-- `syncFromDOM`: extract the rendered cards (skipping cards with an empty
`data-task-id`), merge each into the Durable Store, and — only when the page
URL carries the `deleted` query parameter — delete every stored task whose id
is not among the extracted ids (cascading to its results). -/
def syncFromDOM (s : Store) (doms : List DomTask) (hasDeletedParam : Bool) : Store :=
  let dom := syncDom doms
  let s1 := savePhase s dom
  if hasDeletedParam then deletePhase s1 (syncDeleteIds s1 dom) else s1

/-! ## Synthetic cards (`loadPersistedTasks`) -/

/-- `simplifyUrl`: strip a (case-insensitive) `http://` or `https://` scheme
and one trailing slash, as the two `replace` calls do. -/
def simplifyUrl (url : String) : String :=
  let l := url.data
  let lower := l.map Char.toLower
  let rest :=
    if lower.take 8 = "https://".data then l.drop 8
    else if lower.take 7 = "http://".data then l.drop 7
    else l
  String.mk (if rest.getLast? = some '/' then rest.dropLast else rest)

/-- The observable content of one synthesized task card: identity texts, the
three stat numbers with the last-run date when a `last_result` with a count
is stored (the date is rendered `DD MMM YYYY`; the model keeps the raw ISO
string), the `(N runs)` annotation text when attached, and whether the card
instead carries the `No results` paragraph. -/
structure Card where
  taskId : String
  name : String
  url : String
  standard : String
  stats : Option Counts
  lastRunDate : Option String
  runCount : Option Nat
  noResults : Bool
deriving DecidableEq

/-- The card `loadPersistedTasks` builds for one Durable task: stats and
last-run date from `task.last_result` when present (with the run-count
annotation appended only when more than one result is stored for the task),
and a `No results` paragraph otherwise. -/
def buildCard (s : Store) (t : Task) : Card :=
  match t.last_result with
  | some lr =>
      let n := (getResultsByTask s t.id).length
      { taskId := t.id, name := t.name, url := simplifyUrl t.url,
        standard := t.standard, stats := some lr.count,
        lastRunDate := some lr.date,
        runCount := if n > 1 then some n else none,
        noResults := false }
  | none =>
      { taskId := t.id, name := t.name, url := simplifyUrl t.url,
        standard := t.standard, stats := none, lastRunDate := none,
        runCount := none, noResults := true }

/-- `loadPersistedTasks`: for every stored task whose id is not already
rendered (`domIds`), build and append one synthetic card. -/
def loadPersistedTasks (s : Store) (domIds : List String) : List Card :=
  ((getTasks s).filter (fun t => ¬ domIds.contains t.id)).map (buildCard s)

/-! ## Run manager (`countIssues`, `runTask`) and `/api/run` outcomes -/

/-- The JSON body returned by `/api/run` (the raw pa11y result): the model
keeps the part the client reads, the optional `issues` array. -/
structure Pa11yRunJson where
  issues : Option (List Issue)
deriving DecidableEq

/-- One step of the `countIssues` tally: `counts[issue.type]++` happens
exactly when `issue.type` is one of the three keys of the counts object. -/
def bumpCount (c : Counts) (ty : String) : Counts :=
  if ty = "error" then { c with error := c.error + 1 }
  else if ty = "warning" then { c with warning := c.warning + 1 }
  else if ty = "notice" then { c with notice := c.notice + 1 }
  else c

/-- `countIssues(result)`: tally `result.issues` by `type`, starting from
`{error: 0, warning: 0, notice: 0}`; a missing / non-array `issues` leaves
the zero counts. -/
def countIssues (result : Pa11yRunJson) : Counts :=
  match result.issues with
  | some issues => issues.foldl (fun c i => bumpCount c i.type) ⟨0, 0, 0⟩
  | none => ⟨0, 0, 0⟩

/-- The `resultObj` the run manager persists after a successful
`/api/run` fetch. -/
def clientResultObj (t : Task) (taskId resultId date : String)
    (body : Pa11yRunJson) : Result :=
  { id := resultId, task := taskId, url := t.url, name := t.name,
    standard := t.standard, date := date, count := countIssues body,
    results := body.issues.getD [], ignore := t.ignore.getD [] }

/-- The identity texts the run manager can scrape from the
`.task-header` fragment when the task is missing from the Durable Store
(each empty when the corresponding element was missing or blank; the
standard already stripped of wrapping parentheses). -/
structure DomHeader where
  name : String
  url : String
  standard : String
deriving DecidableEq

/-- Outcome of the `/api/run` fetch: a network (or JSON-parse) error, a
non-ok HTTP status, or an ok response with the parsed body. -/
inductive FetchOutcome where
  | networkError
  | httpError (status : Nat)
  | success (body : Pa11yRunJson)
deriving DecidableEq

/-- What `runTask` leaves behind: the Durable Store, whether an `alert` was
shown, and whether `window.location.reload()` was called. -/
structure RunOutcome where
  store : Store
  alerted : Bool
  reloaded : Bool
deriving DecidableEq

/-- The run manager's `runTask(taskId)`.  The task is read from the Durable
Store; if absent, a minimal `{id, name, url, standard}` record is scraped
from the task header and saved when all three texts are non-empty, else the
`Task not found` alert fires and nothing runs.  On a fetch error or non-ok
status the catch block alerts without touching the store or reloading; on
success the result object and the task's refreshed `last_result` are saved
and the page reloads.  `resultId` and `date` stand for `generateId()` and
`new Date().toISOString()`. -/
def runTaskClient (s : Store) (taskId : String) (header : Option DomHeader)
    (outcome : FetchOutcome) (resultId date : String) : RunOutcome :=
  let read : Store × Option Task :=
    match getTask s taskId with
    | some t => (s, some t)
    | none =>
        match header with
        | some h =>
            if ¬ h.name = "" ∧ ¬ h.url = "" ∧ ¬ h.standard = "" then
              let t : Task :=
                { id := taskId, name := h.name, url := h.url, standard := h.standard }
              (saveTask s t, some t)
            else (s, none)
        | none => (s, none)
  match read with
  | (s1, none) => { store := s1, alerted := true, reloaded := false }
  | (s1, some t) =>
      match outcome with
      | .success body =>
          let counts := countIssues body
          let r := clientResultObj t taskId resultId date body
          let s2 := saveResult s1 r
          let t' := { t with
            last_result := some { id := some resultId, date := date, count := counts } }
          { store := saveTask s2 t', alerted := false, reloaded := true }
      | _ => { store := s1, alerted := true, reloaded := false }

/-! ## In-memory webservice (`transformResult`, `taskApi`) -/

/-- `transformResult(taskId, task, pa11yResult)` of the in-memory
webservice: map `pa11yResult.issues || []` to message records (projecting
the five issue fields) while tallying `count[issue.type]++` for the three
known types.  `resultId` and `date` stand for `nanoid()` and
`new Date().toISOString()`. -/
def transformResult (taskId : String) (task : Task) (pr : Pa11yRunJson)
    (resultId date : String) : Result :=
  let issues := pr.issues.getD []
  { id := resultId, task := taskId, url := task.url, name := task.name,
    standard := task.standard, date := date,
    count := issues.foldl (fun c i => bumpCount c i.type) ⟨0, 0, 0⟩,
    results := issues.map (fun i =>
      { code := i.code, type := i.type, message := i.message,
        context := i.context, selector := i.selector }),
    ignore := task.ignore.getD [] }

/-- The Ephemeral Task Store of the in-memory webservice: the `tasks` map
(task id to task) and the `results` map (task id to its ordered result
list). -/
structure EphemeralStore where
  tasks : List (String × Task)
  results : List (String × List Result)
deriving DecidableEq

/-- `Map.prototype.get`. -/
def mapGet {α : Type} (m : List (String × α)) (id : String) : Option α :=
  (m.find? (fun kv => kv.1 = id)).map (fun kv => kv.2)

/-- `Map.prototype.delete` (a no-op when the key is absent). -/
def mapDelete {α : Type} (m : List (String × α)) (id : String) : List (String × α) :=
  m.filter (fun kv => ¬ kv.1 = id)

/-- `taskApi(id).remove`: `tasks.delete(id); results.delete(id);
callback(null)` — the second component is the error handed to the callback,
always `none`. -/
def taskRemove (st : EphemeralStore) (id : String) : EphemeralStore × Option String :=
  ({ tasks := mapDelete st.tasks id, results := mapDelete st.results id }, none)

/-- The `POST /:id/delete` route: call `remove` and redirect to `/?deleted`
regardless of the error handed to the callback.  The second component is the
redirect target. -/
def delPost (st : EphemeralStore) (id : String) : EphemeralStore × String :=
  let rem := taskRemove st id
  (rem.1, "/?deleted")

/-! ## Edit manager (prepopulate / submit) -/

/-- The edit form's field values: the text inputs, the actions and headers
textareas, and the `ignore[]` checkboxes as (value, checked) pairs in DOM
order. -/
structure EditForm where
  name : String
  url : String
  standard : String
  timeout : String
  wait : String
  actionsText : String
  username : String
  password : String
  headersText : String
  hideElements : String
  ignoreBoxes : List (String × Bool)
deriving DecidableEq

/-- The checked `ignore[]` values of a form, in DOM order. -/
def checkedValues (f : EditForm) : List String :=
  (f.ignoreBoxes.filter (fun kv => kv.2)).map (fun kv => kv.1)

/-- `x ? x : undefined` on a string field. -/
def strOpt (x : String) : Option String :=
  if x = "" then none else some x

/-- The actions textarea pipeline on submit:
`split(/[\r\n]+/).map(a => a.trim()).filter(a => a)` (with `[]` for an
empty textarea). -/
def parseActions (text : String) : List String :=
  if text = "" then []
  else ((splitLinesRaw text).map (fun l => String.mk (trimChars l))).filter (fun a => ¬ a = "")

/-- The headers textarea pipeline on submit: each line split at its first
colon into a trimmed key and trimmed value, lines without a colon or with an
empty key skipped, duplicate keys overwritten in place; `undefined` when the
textarea is empty or no line parsed. -/
def parseHeaders (text : String) : Option (List (String × String)) :=
  if text = "" then none
  else
    let obj := (splitLinesRaw text).foldl
      (fun acc line =>
        match splitAtColon line with
        | none => acc
        | some (k, v) =>
            let key := String.mk (trimChars k)
            if key = "" then acc else objSet acc key (String.mk (trimChars v)))
      []
    if obj = [] then none else some obj

/-- The field updates the submit handler applies to the task object read
from the Durable Store: trimmed scalar fields (empty meaning `undefined`
for the optional ones), the parsed actions and headers textareas, and the
checked `ignore[]` values. -/
def editTask (base : Task) (f : EditForm) : Task :=
  { base with
    name := jsTrim f.name, url := jsTrim f.url, standard := jsTrim f.standard,
    timeout := strOpt (jsTrim f.timeout), wait := strOpt (jsTrim f.wait),
    actions := some (parseActions f.actionsText),
    username := strOpt f.username, password := strOpt f.password,
    headers := parseHeaders f.headersText,
    hideElements := strOpt f.hideElements,
    ignore := some (checkedValues f) }

/-- The edit form's submit handler: read the task from the Durable Store (a
fresh `{id}` object when absent), overwrite the editable fields from the
form values, and save the task before the form submission proceeds. -/
def submitEdit (s : Store) (id : String) (f : EditForm) : Store :=
  saveTask s
    (editTask ((getTask s id).getD { id := id, name := "", url := "", standard := "" }) f)

/-- How `prepopulate` renders a stored `headers` object back into the
textarea: `key + ': ' + value` lines joined by newlines. -/
def renderHeaders : Option (List (String × String)) → String
  | some hs => joinLines (hs.map (fun kv => kv.1 ++ ": " ++ kv.2))
  | none => ""

/-- `prepopulate`: when the Durable Store holds the task, overwrite the
server-rendered form's values with the stored fields (`task.x || ''` on the
scalar fields, the actions array joined by newlines, the headers object
rendered as `key: value` lines, and each `ignore[]` checkbox checked exactly
when its value is in `task.ignore`); when it does not, leave the form
untouched. -/
def prepopulate (s : Store) (id : String) (f0 : EditForm) : EditForm :=
  match getTask s id with
  | none => f0
  | some t =>
      { f0 with
        name := t.name, url := t.url, standard := t.standard,
        timeout := t.timeout.getD "", wait := t.wait.getD "",
        actionsText :=
          match t.actions with
          | some as => joinLines as
          | none => "",
        username := t.username.getD "", password := t.password.getD "",
        headersText := renderHeaders t.headers,
        hideElements := t.hideElements.getD "",
        ignoreBoxes :=
          match t.ignore with
          | some ig => f0.ignoreBoxes.map (fun kv => (kv.1, ig.contains kv.1))
          | none => f0.ignoreBoxes }

/-! ## Export / import (`collectData`, `onFileSelected`) -/

/-- The export/import document `{tasks, results}`. -/
structure DataDoc where
  tasks : List Task
  results : List Result
deriving DecidableEq

/-- `collectData`: all stored tasks, and the results gathered by iterating
the tasks and fetching each task's results by id. -/
def collectData (s : Store) : DataDoc :=
  { tasks := getTasks s,
    results := (getTasks s).foldl (fun acc t => acc ++ getResultsByTask s t.id) [] }

/-- The import step of `onFileSelected` on a parsed document: upsert every
task and every result of the document independently (per-record `saveTask` /
`saveResult` transactions; same-key writes are serialised in array
order). -/
def importData (s : Store) (doc : DataDoc) : Store :=
  let s1 := doc.tasks.foldl saveTask s
  doc.results.foldl saveResult s1

/-- Specification-side counting: the number of entries of a results list
with the given `type` (the quantity the count invariant speaks about). -/
def typeCount (ty : String) (l : List Issue) : Nat :=
  (l.filter (fun i => i.type = ty)).length

/-! ## Concrete instances used by witnesses and counterexamples -/

/-- The empty Durable Store. -/
def emptyStore : Store := { tasks := [], results := [] }

/-- Task `A` of the deletion scenario. -/
def taskA : Task := { id := "A", name := "Alpha", url := "http://a.example", standard := "WCAG2AA" }

/-- Task `B` of the deletion scenario. -/
def taskB : Task := { id := "B", name := "Beta", url := "http://b.example", standard := "WCAG2AA" }

/-- A stored result belonging to task `B`. -/
def resultB : Result :=
  { id := "rB", task := "B", url := "http://b.example", name := "Beta",
    standard := "WCAG2AA", date := "2025-01-01T00:00:00.000Z",
    count := ⟨1, 0, 0⟩, results := [⟨"c1", "error", "m", "x", "sel"⟩], ignore := [] }

/-- Durable Store holding `{A, B}` and one result for `B`. -/
def storeAB : Store := { tasks := [taskA, taskB], results := [resultB] }

/-- The rendered card for task `A` (no stat widgets). -/
def domA : DomTask := { id := "A", name := "Alpha", url := "a.example", standard := "WCAG2AA", stats := none }

/-- An existing Durable record for the merge witness, carrying fields the
extraction does not. -/
def existingA : Task :=
  { id := "A", name := "Old", url := "http://old.example", standard := "WCAG2A",
    ignore := some ["r1"], timeout := some "30000", actions := some ["click #x"],
    username := some "u", headers := some [("X-K", "v")],
    last_result := some { id := some "r0", date := "2024-12-31T00:00:00.000Z", count := ⟨3, 2, 1⟩ } }

/-- Store holding only `existingA`. -/
def storeA : Store := { tasks := [existingA], results := [] }

/-- An engine issue with a type outside `{error, warning, notice}`. -/
def bogusIssue : Issue := { code := "c0", type := "bogus", message := "m", context := "x", selector := "s" }

/-- A well-typed issue list: two errors and one warning. -/
def goodBody : Pa11yRunJson :=
  { issues := some [⟨"c1", "error", "m1", "x1", "s1"⟩, ⟨"c2", "error", "m2", "x2", "s2"⟩,
                    ⟨"c3", "warning", "m3", "x3", "s3"⟩] }

/-- Task `T1` with a `last_result` of `{error: 2, warning: 1, notice: 0}`. -/
def taskT1 : Task :=
  { id := "T1", name := "T", url := "http://t.example", standard := "WCAG2AA",
    last_result := some { id := some "r1", date := "2025-02-02T00:00:00.000Z",
                          count := ⟨2, 1, 0⟩ } }

/-- Store for the synthetic-card counterexample: `taskT1` and exactly one
stored result for it. -/
def storeT1 : Store :=
  { tasks := [taskT1],
    results := [{ id := "r1", task := "T1", url := "http://t.example", name := "T",
                  standard := "WCAG2AA", date := "2025-02-02T00:00:00.000Z",
                  count := ⟨2, 1, 0⟩, results := [], ignore := [] }] }

/-- An orphaned result: its `task` id matches no task of `storeOrphan`. -/
def orphanResult : Result :=
  { id := "rX", task := "gone", url := "http://g.example", name := "G",
    standard := "WCAG2AA", date := "2025-03-03T00:00:00.000Z",
    count := ⟨0, 0, 0⟩, results := [], ignore := [] }

/-- A store holding one task `T1` and `orphanResult`. -/
def storeOrphan : Store :=
  { tasks := [{ id := "T1", name := "T", url := "http://t.example", standard := "WCAG2AA" }],
    results := [orphanResult] }

/-- An edit form whose values are all whole-string trimmed, with a blank
interior line in the actions textarea. -/
def formBlankLine : EditForm :=
  { name := "Example", url := "https://example.com", standard := "WCAG2AA",
    timeout := "", wait := "", actionsText := "a\n\nb", username := "", password := "",
    headersText := "", hideElements := "", ignoreBoxes := [("rule1", true), ("rule2", false)] }

/-- An edit form in canonical shape for the amended round-trip witness. -/
def formCanon : EditForm :=
  { name := "Example", url := "https://example.com", standard := "WCAG2AA",
    timeout := "30000", wait := "500", actionsText := "click element #a\nwait for url",
    username := "user", password := "pw", headersText := "X-One: 1\nX-Two: 2",
    hideElements := ".ad", ignoreBoxes := [("rule1", true), ("rule2", false)] }

/-- Imported task reusing id `A` with entirely different fields. -/
def importedA : Task :=
  { id := "A", name := "New", url := "http://new.example", standard := "Section508" }

/-! ## Helper lemmas about the Durable Store operations -/

theorem find?_putTask (ts : List Task) (t : Task) (i : String) :
    (putTask ts t).find? (fun u => u.id = i) =
      if t.id = i then some t else ts.find? (fun u => u.id = i) := by
  induction ts with
  | nil =>
      by_cases h : t.id = i <;> simp [putTask, List.find?, h]
  | cons u us ih =>
      by_cases hu : u.id = t.id
      · by_cases h : t.id = i
        · simp [putTask, hu, List.find?, h]
        · have hui : ¬ u.id = i := by rw [hu]; exact h
          simp [putTask, hu, List.find?, h, hui]
      · by_cases huid : u.id = i
        · have ht : ¬ t.id = i := fun h => hu (by rw [huid, h])
          have ht' : ¬ i = t.id := fun h => ht h.symm
          simp [putTask, hu, List.find?, huid, ht, ht']
        · simp [putTask, hu, List.find?, huid, ih]

theorem getTask_saveTask (s : Store) (t : Task) (i : String) :
    getTask (saveTask s t) i = if t.id = i then some t else getTask s i :=
  find?_putTask s.tasks t i

theorem results_saveTask (s : Store) (t : Task) : (saveTask s t).results = s.results := rfl

theorem tasks_saveResult (s : Store) (r : Result) : (saveResult s r).tasks = s.tasks := rfl

theorem getTask_id (s : Store) (i : String) (t : Task) (h : getTask s i = some t) :
    t.id = i := by
  have := List.find?_some h
  simpa using this

theorem exists_id_iff_isSome (l : List Task) (i : String) :
    (∃ u ∈ l, u.id = i) ↔ (l.find? (fun u => u.id = i)).isSome := by
  rw [List.find?_isSome]; simp

theorem find?_key_of_nodup {α : Type} (key : α → String) (l : List α) (x : α)
    (h : (l.map key).Nodup) (hx : x ∈ l) :
    l.find? (fun y => key y = key x) = some x := by
  induction l with
  | nil => cases hx
  | cons a as ih =>
      have h2 : (∀ y ∈ as, ¬ key y = key a) ∧ (List.map key as).Nodup := by
        simpa using h
      by_cases ha : key a = key x
      · have : a = x := by
          rcases List.mem_cons.mp hx with rfl | hx'
          · rfl
          · exact absurd ha.symm (h2.1 x hx')
        simp [List.find?, ha, this]
      · have hx' : x ∈ as := by
          rcases List.mem_cons.mp hx with rfl | hx'
          · exact absurd rfl ha
          · exact hx'
        simp [List.find?, ha, ih h2.2 hx']

/-! ## Helper lemmas about the phases of `syncFromDOM` -/

theorem mergeTask_id (o : Option Task) (d : DomTask) : (mergeTask o d).id = d.id := by
  cases o <;> rfl

theorem results_savePhase (s : Store) (doms : List DomTask) :
    (savePhase s doms).results = s.results := by
  induction doms generalizing s with
  | nil => rfl
  | cons d ds ih =>
      simp only [savePhase, List.foldl_cons] at *
      rw [ih]
      rfl

theorem getTask_savePhase (s : Store) (doms : List DomTask) (i : String)
    (h : (doms.map DomTask.id).Nodup) :
    getTask (savePhase s doms) i =
      match doms.find? (fun d => d.id = i) with
      | some d => some (mergeTask (getTask s i) d)
      | none => getTask s i := by
  induction doms generalizing s with
  | nil => rfl
  | cons d ds ih =>
      have h2 : (∀ y ∈ ds, ¬ DomTask.id y = DomTask.id d) ∧ (ds.map DomTask.id).Nodup := by
        simpa using h
      have step : savePhase s (d :: ds)
          = savePhase (saveTask s (mergeTask (getTask s d.id) d)) ds := by
        simp [savePhase]
      rw [step, ih _ h2.2]
      by_cases hdi : d.id = i
      · subst hdi
        have hnone : ds.find? (fun d' => d'.id = d.id) = none := by
          rw [List.find?_eq_none]
          intro d' hd'
          simp only [decide_eq_true_eq]
          exact h2.1 d' hd'
        rw [hnone]
        simp [List.find?, getTask_saveTask, mergeTask_id]
      · have hsi : getTask (saveTask s (mergeTask (getTask s d.id) d)) i = getTask s i := by
          rw [getTask_saveTask]
          simp [mergeTask_id, hdi]
        cases hfind : ds.find? (fun d' => d'.id = i) with
        | none => simp [List.find?, hdi, hfind, hsi]
        | some d' => simp [List.find?, hdi, hfind, hsi]

theorem mem_tasks_deletePhase (s : Store) (ids : List String) (t : Task) :
    t ∈ (deletePhase s ids).tasks ↔ t ∈ s.tasks ∧ t.id ∉ ids := by
  induction ids generalizing s with
  | nil => simp [deletePhase]
  | cons a l ih =>
      have step : deletePhase s (a :: l) = deletePhase (deleteTaskOps s a) l := by
        simp [deletePhase]
      rw [step, ih]
      simp only [deleteTaskOps, List.mem_filter, List.mem_cons, decide_not]
      constructor
      · rintro ⟨⟨hmem, hne⟩, hnl⟩
        refine ⟨hmem, ?_⟩
        rintro (h | h)
        · simp [h] at hne
        · exact hnl h
      · rintro ⟨hmem, hnot⟩
        refine ⟨⟨hmem, ?_⟩, fun h => hnot (Or.inr h)⟩
        simpa using fun h => hnot (Or.inl h)

theorem mem_results_deletePhase (s : Store) (ids : List String) (r : Result) :
    r ∈ (deletePhase s ids).results ↔ r ∈ s.results ∧ r.task ∉ ids := by
  induction ids generalizing s with
  | nil => simp [deletePhase]
  | cons a l ih =>
      have step : deletePhase s (a :: l) = deletePhase (deleteTaskOps s a) l := by
        simp [deletePhase]
      rw [step, ih]
      simp only [deleteTaskOps, List.mem_filter, List.mem_cons, decide_not]
      constructor
      · rintro ⟨⟨hmem, hne⟩, hnl⟩
        refine ⟨hmem, ?_⟩
        rintro (h | h)
        · simp [h] at hne
        · exact hnl h
      · rintro ⟨hmem, hnot⟩
        refine ⟨⟨hmem, ?_⟩, fun h => hnot (Or.inr h)⟩
        simpa using fun h => hnot (Or.inl h)

theorem mem_map_id_upsertDom (acc : List DomTask) (d : DomTask) (i : String) :
    i ∈ (upsertDom acc d).map DomTask.id ↔ i ∈ acc.map DomTask.id ∨ i = d.id := by
  induction acc with
  | nil => simp [upsertDom]
  | cons x xs ih =>
      by_cases hx : x.id = d.id
      · simp only [upsertDom]
        rw [if_pos hx]
        simp only [List.map_cons, List.mem_cons, hx]
        tauto
      · simp only [upsertDom]
        rw [if_neg hx]
        simp only [List.map_cons, List.mem_cons, ih]
        tauto

theorem nodup_map_id_upsertDom (acc : List DomTask) (d : DomTask)
    (h : (acc.map DomTask.id).Nodup) : ((upsertDom acc d).map DomTask.id).Nodup := by
  induction acc with
  | nil => simp [upsertDom]
  | cons x xs ih =>
      have h2 : (∀ y ∈ xs, ¬ DomTask.id y = DomTask.id x) ∧ (xs.map DomTask.id).Nodup := by
        simpa using h
      by_cases hx : x.id = d.id
      · simp only [upsertDom, if_pos hx, List.map_cons, List.nodup_cons]
        constructor
        · intro hmem
          rcases List.mem_map.mp hmem with ⟨y, hy, hyid⟩
          exact h2.1 y hy (by rw [hyid, hx])
        · exact h2.2
      · simp only [upsertDom, if_neg hx, List.map_cons, List.nodup_cons]
        constructor
        · intro hmem
          rcases (mem_map_id_upsertDom xs d x.id).mp hmem with hm | hm
          · rcases List.mem_map.mp hm with ⟨y, hy, hyid⟩
            exact h2.1 y hy hyid
          · exact hx hm
        · exact ih h2.2

theorem mem_map_id_foldl_upsertDom (ds : List DomTask) (acc : List DomTask) (i : String) :
    i ∈ (ds.foldl upsertDom acc).map DomTask.id
      ↔ i ∈ acc.map DomTask.id ∨ i ∈ ds.map DomTask.id := by
  induction ds generalizing acc with
  | nil => simp
  | cons d ds ih =>
      simp only [List.foldl_cons, ih, mem_map_id_upsertDom, List.map_cons, List.mem_cons]
      tauto

theorem mem_map_id_dedupe (ds : List DomTask) (i : String) :
    i ∈ (dedupeDomTasks ds).map DomTask.id ↔ i ∈ ds.map DomTask.id := by
  simpa [dedupeDomTasks] using mem_map_id_foldl_upsertDom ds [] i

theorem nodup_map_id_dedupe (ds : List DomTask) :
    ((dedupeDomTasks ds).map DomTask.id).Nodup := by
  have aux : ∀ (l : List DomTask) (acc : List DomTask),
      (acc.map DomTask.id).Nodup → ((l.foldl upsertDom acc).map DomTask.id).Nodup := by
    intro l
    induction l with
    | nil => intro acc h; simpa using h
    | cons d ds ih =>
        intro acc h
        exact ih _ (nodup_map_id_upsertDom acc d h)
  exact aux ds [] (by simp)

theorem upsertDom_of_not_mem (acc : List DomTask) (d : DomTask)
    (h : d.id ∉ acc.map DomTask.id) : upsertDom acc d = acc ++ [d] := by
  induction acc with
  | nil => rfl
  | cons x xs ih =>
      have hx : ¬ x.id = d.id := by
        intro hx
        exact h (by simp [hx.symm])
      simp only [upsertDom, if_neg hx, List.cons_append]
      rw [ih (fun hm => h (by simp [hm]))]

theorem dedupe_eq_self (ds : List DomTask) (h : (ds.map DomTask.id).Nodup) :
    dedupeDomTasks ds = ds := by
  have aux : ∀ (l : List DomTask) (acc : List DomTask),
      ((acc ++ l).map DomTask.id).Nodup → l.foldl upsertDom acc = acc ++ l := by
    intro l
    induction l with
    | nil => intro acc _; simp
    | cons d ds ih =>
        intro acc hnd
        have hd_not : d.id ∉ acc.map DomTask.id := by
          intro hm
          rcases List.mem_map.mp hm with ⟨y, hy, hyid⟩
          have hsplit : (List.map DomTask.id acc ++ d.id :: List.map DomTask.id ds).Nodup := by
            simpa using hnd
          have hdisj := List.disjoint_of_nodup_append hsplit
          exact hdisj (hyid ▸ List.mem_map_of_mem DomTask.id hy) (by simp)
        simp only [List.foldl_cons]
        rw [upsertDom_of_not_mem acc d hd_not]
        have := ih (acc ++ [d]) (by simpa using hnd)
        simpa using this
  simpa [dedupeDomTasks] using aux ds [] (by simpa using h)

theorem nodup_syncDom (doms : List DomTask) : ((syncDom doms).map DomTask.id).Nodup :=
  nodup_map_id_dedupe _

theorem mem_syncDom_ids (doms : List DomTask) (i : String) :
    (∃ d ∈ syncDom doms, d.id = i) ↔ (∃ d ∈ doms, d.id = i ∧ ¬ i = "") := by
  constructor
  · rintro ⟨d0, hd0, rfl⟩
    have hmm : d0.id ∈ (syncDom doms).map DomTask.id := List.mem_map_of_mem DomTask.id hd0
    rw [syncDom, mem_map_id_dedupe] at hmm
    rcases List.mem_map.mp hmm with ⟨d1, hd1, hd1id⟩
    have hd1' := List.mem_filter.mp hd1
    refine ⟨d1, hd1'.1, hd1id, ?_⟩
    rw [← hd1id]
    simpa using hd1'.2
  · rintro ⟨d0, hd0, hid, hne⟩
    have hd0f : d0 ∈ doms.filter (fun d => ¬ d.id = "") :=
      List.mem_filter.mpr ⟨hd0, by simpa using (hid ▸ hne)⟩
    have hmm : i ∈ (doms.filter (fun d => ¬ d.id = "")).map DomTask.id :=
      hid ▸ List.mem_map_of_mem DomTask.id hd0f
    rw [← mem_map_id_dedupe] at hmm
    rcases List.mem_map.mp hmm with ⟨d1, hd1, hd1id⟩
    exact ⟨d1, hd1, hd1id⟩

theorem mem_syncDeleteIds (s1 : Store) (dom : List DomTask) (i : String) :
    i ∈ syncDeleteIds s1 dom ↔
      ∃ u ∈ s1.tasks, u.id = i ∧ ¬ ∃ d ∈ dom, d.id = i := by
  constructor
  · intro hiL
    rcases List.mem_map.mp hiL with ⟨u, hu, huid⟩
    have hu' := List.mem_filter.mp hu
    refine ⟨u, hu'.1, huid, ?_⟩
    rintro ⟨d0, hd0, hd0id⟩
    have hnoany : ¬ (dom.any (fun d => d.id = u.id) = true) := by
      simpa using hu'.2
    exact hnoany (List.any_eq_true.mpr ⟨d0, hd0, by simp [hd0id, huid]⟩)
  · rintro ⟨u, hu, huid, hno⟩
    have hfil : u ∈ (getTasks s1).filter (fun t => ¬ dom.any (fun d => d.id = t.id)) := by
      refine List.mem_filter.mpr ⟨hu, ?_⟩
      simp only [decide_eq_true_eq]
      intro hany
      rcases List.any_eq_true.mp hany with ⟨d0, hd0, hd0id⟩
      exact hno ⟨d0, hd0, by simpa [huid] using hd0id⟩
    exact huid ▸ List.mem_map_of_mem Task.id hfil

theorem getTask_mem (s : Store) (i : String) (t : Task) (h : getTask s i = some t) :
    t ∈ s.tasks :=
  List.mem_of_find?_eq_some h

theorem getTask_isSome_of_exists (s : Store) (i : String)
    (h : ∃ t ∈ s.tasks, t.id = i) : ∃ t, getTask s i = some t := by
  have := (exists_id_iff_isSome s.tasks i).mp h
  exact Option.isSome_iff_exists.mp this

/-! ## Helper lemmas about the issue tally -/

theorem foldl_bump_eq (l : List Issue) (c : Counts) :
    l.foldl (fun c i => bumpCount c i.type) c =
      ⟨c.error + typeCount "error" l, c.warning + typeCount "warning" l,
       c.notice + typeCount "notice" l⟩ := by
  induction l generalizing c with
  | nil => simp [typeCount]
  | cons i l ih =>
      simp only [List.foldl_cons, ih]
      by_cases h1 : i.type = "error"
      · simp [bumpCount, typeCount, h1, Counts.mk.injEq]
        omega
      · by_cases h2 : i.type = "warning"
        · simp [bumpCount, typeCount, h1, h2, Counts.mk.injEq]
          omega
        · by_cases h3 : i.type = "notice"
          · simp [bumpCount, typeCount, h1, h2, h3, Counts.mk.injEq]
            omega
          · simp [bumpCount, typeCount, h1, h2, h3]

theorem typeCount_total (l : List Issue)
    (h : ∀ i ∈ l, i.type = "error" ∨ i.type = "warning" ∨ i.type = "notice") :
    typeCount "error" l + typeCount "warning" l + typeCount "notice" l = l.length := by
  induction l with
  | nil => simp [typeCount]
  | cons i l ih =>
      have hi := h i (List.mem_cons_self i l)
      have hrest := ih (fun j hj => h j (List.mem_cons_of_mem i hj))
      rcases hi with h1 | h1 | h1 <;>
        · simp only [typeCount, List.filter_cons, List.length_cons, h1] at *
          simp at *
          omega

theorem map_issue_eta (l : List Issue) :
    l.map (fun i => Issue.mk i.code i.type i.message i.context i.selector) = l := by
  induction l with
  | nil => rfl
  | cons i l ih => simp [ih]

/-! ## Helper lemmas about import / export -/

theorem getTask_foldl_saveTask (s : Store) (ts : List Task) (i : String)
    (h : (ts.map Task.id).Nodup) :
    getTask (ts.foldl saveTask s) i =
      match ts.find? (fun u => u.id = i) with
      | some u => some u
      | none => getTask s i := by
  induction ts generalizing s with
  | nil => rfl
  | cons t ts ih =>
      have h2 : (∀ y ∈ ts, ¬ Task.id y = Task.id t) ∧ (ts.map Task.id).Nodup := by
        simpa using h
      simp only [List.foldl_cons]
      rw [ih _ h2.2]
      by_cases hti : t.id = i
      · subst hti
        have hnone : ts.find? (fun u => u.id = t.id) = none := by
          rw [List.find?_eq_none]
          intro u hu
          simp only [decide_eq_true_eq]
          exact h2.1 u hu
        rw [hnone]
        simp [List.find?, getTask_saveTask]
      · have hsi : getTask (saveTask s t) i = getTask s i := by
          rw [getTask_saveTask]
          simp [hti]
        cases hfind : ts.find? (fun u => u.id = i) with
        | none => simp [List.find?, hti, hfind, hsi]
        | some u => simp [List.find?, hti, hfind, hsi]

theorem tasks_foldl_saveResult (s : Store) (rs : List Result) :
    (rs.foldl saveResult s).tasks = s.tasks := by
  induction rs generalizing s with
  | nil => rfl
  | cons r rs ih =>
      simp only [List.foldl_cons]
      rw [ih]
      rfl

theorem results_foldl_saveTask (s : Store) (ts : List Task) :
    (ts.foldl saveTask s).results = s.results := by
  induction ts generalizing s with
  | nil => rfl
  | cons t ts ih =>
      simp only [List.foldl_cons]
      rw [ih]
      rfl

theorem mem_putResult (us : List Result) (u r : Result) (h : r ∈ putResult us u) :
    r ∈ us ∨ r = u := by
  induction us with
  | nil => simpa [putResult] using h
  | cons v vs ih =>
      by_cases hv : v.id = u.id
      · simp only [putResult, if_pos hv] at h
        rcases List.mem_cons.mp h with rfl | h'
        · exact Or.inr rfl
        · exact Or.inl (List.mem_cons_of_mem v h')
      · simp only [putResult, if_neg hv] at h
        rcases List.mem_cons.mp h with rfl | h'
        · exact Or.inl (List.mem_cons_self _ _)
        · rcases ih h' with h'' | h''
          · exact Or.inl (List.mem_cons_of_mem v h'')
          · exact Or.inr h''

theorem mem_results_foldl_saveResult (s : Store) (rs : List Result) (r : Result)
    (h : r ∈ (rs.foldl saveResult s).results) : r ∈ s.results ∨ r ∈ rs := by
  induction rs generalizing s with
  | nil => exact Or.inl h
  | cons u us ih =>
      simp only [List.foldl_cons] at h
      rcases ih _ h with h' | h'
      · rcases mem_putResult s.results u r h' with h'' | h''
        · exact Or.inl h''
        · exact Or.inr (h'' ▸ List.mem_cons_self u us)
      · exact Or.inr (List.mem_cons_of_mem u h')

theorem mem_collectData_results (s : Store) (r : Result) :
    r ∈ (collectData s).results ↔ ∃ t ∈ s.tasks, r ∈ getResultsByTask s t.id := by
  have aux : ∀ (l : List Task) (init : List Result),
      r ∈ l.foldl (fun acc t => acc ++ getResultsByTask s t.id) init
        ↔ r ∈ init ∨ ∃ t ∈ l, r ∈ getResultsByTask s t.id := by
    intro l
    induction l with
    | nil => intro init; simp
    | cons t ts ih =>
        intro init
        simp only [List.foldl_cons, ih, List.mem_append, List.mem_cons]
        constructor
        · rintro (⟨h | h⟩ | ⟨u, hu, hr⟩)
          · exact Or.inl h
          · exact Or.inr ⟨t, Or.inl rfl, h⟩
          · exact Or.inr ⟨u, Or.inr hu, hr⟩
        · rintro (h | ⟨u, hu | hu, hr⟩)
          · exact Or.inl (Or.inl h)
          · exact Or.inl (Or.inr (hu ▸ hr))
          · exact Or.inr ⟨u, hu, hr⟩
  simpa [collectData, getTasks] using aux s.tasks []

/-! ## Helper lemma about the Ephemeral Store maps -/

theorem mapGet_mapDelete {α : Type} (m : List (String × α)) (id : String) :
    mapGet (mapDelete m id) id = none := by
  have hfind : (mapDelete m id).find? (fun kv => kv.1 = id) = none := by
    rw [List.find?_eq_none]
    intro kv hkv
    have hne := (List.mem_filter.mp hkv).2
    simpa using hne
  simp [mapGet, hfind]

/-! ## Helper lemmas about the edit form -/

theorem strOpt_getD (x : String) : (strOpt x).getD "" = x := by
  unfold strOpt
  by_cases h : x = "" <;> simp [h]

theorem checkedValues_sub (f : EditForm) :
    ∀ v ∈ checkedValues f, v ∈ f.ignoreBoxes.map Prod.fst := by
  intro v hv
  rcases List.mem_map.mp hv with ⟨kv, hkv, rfl⟩
  exact List.mem_map_of_mem Prod.fst (List.mem_filter.mp hkv).1

theorem mem_marked_boxes (boxes : List (String × Bool)) (ig : List String) (v : String) :
    (v ∈ ((boxes.map (fun kv => (kv.1, ig.contains kv.1))).filter
            (fun kv => kv.2)).map Prod.fst)
      ↔ (v ∈ boxes.map Prod.fst ∧ v ∈ ig) := by
  constructor
  · intro hv
    rcases List.mem_map.mp hv with ⟨kv, hkv, rfl⟩
    have h1 := List.mem_filter.mp hkv
    rcases List.mem_map.mp h1.1 with ⟨kv0, hkv0, rfl⟩
    refine ⟨?_, ?_⟩
    · simpa using List.mem_map_of_mem Prod.fst hkv0
    · simpa using h1.2
  · rintro ⟨hvb, hvig⟩
    rcases List.mem_map.mp hvb with ⟨kv0, hkv0, rfl⟩
    refine List.mem_map.mpr ⟨(kv0.1, ig.contains kv0.1), ?_, rfl⟩
    refine List.mem_filter.mpr ⟨List.mem_map_of_mem _ hkv0, ?_⟩
    simpa using hvig

/-! ## Claim C1 -/

/-- **C1.**  List-page reconciliation merge rule: for every task record
extracted from the server-rendered view (the extracted cards having
pairwise-distinct, non-empty ids, as DOM `data-task-id` keys do) that has a
matching record in the Durable Store, the record `syncFromDOM` writes back
equals the field-level union in which every field carried by the extraction
(`id`, `name`, `url`, `standard`, and `last_result` exactly when stat widgets
were present) takes the extracted value, and every field of the existing
Durable record not carried by the extraction (in particular `last_result`
when no stat widgets were present) keeps its Durable value. -/
theorem sync_merge_is_field_union (s : Store) (doms : List DomTask) (d : DomTask) (e : Task)
    (hnd : (doms.map DomTask.id).Nodup) (hne : ∀ x ∈ doms, ¬ x.id = "")
    (hd : d ∈ doms) (he : getTask s d.id = some e) :
    getTask (syncFromDOM s doms false) d.id = some (mergeTask (some e) d) ∧
    (mergeTask (some e) d).id = d.id ∧
    (mergeTask (some e) d).name = d.name ∧
    (mergeTask (some e) d).url = d.url ∧
    (mergeTask (some e) d).standard = d.standard ∧
    (∀ st, d.stats = some st → (mergeTask (some e) d).last_result = some (domToLastResult st)) ∧
    (d.stats = none → (mergeTask (some e) d).last_result = e.last_result) ∧
    (mergeTask (some e) d).ignore = e.ignore ∧
    (mergeTask (some e) d).timeout = e.timeout ∧
    (mergeTask (some e) d).wait = e.wait ∧
    (mergeTask (some e) d).actions = e.actions ∧
    (mergeTask (some e) d).username = e.username ∧
    (mergeTask (some e) d).password = e.password ∧
    (mergeTask (some e) d).headers = e.headers ∧
    (mergeTask (some e) d).hideElements = e.hideElements := by
  have hfilter : doms.filter (fun x => ¬ x.id = "") = doms := by
    rw [List.filter_eq_self]
    intro a ha
    simpa using hne a ha
  have hsync : syncFromDOM s doms false = savePhase s doms := by
    show savePhase s (syncDom doms) = savePhase s doms
    simp only [syncDom]
    rw [hfilter, dedupe_eq_self doms hnd]
  have hwrite : getTask (syncFromDOM s doms false) d.id = some (mergeTask (some e) d) := by
    rw [hsync, getTask_savePhase s doms d.id hnd,
        find?_key_of_nodup DomTask.id doms d hnd hd, he]
  refine ⟨hwrite, by simp [mergeTask], by simp [mergeTask], by simp [mergeTask],
    by simp [mergeTask], ?_, ?_, by simp [mergeTask], by simp [mergeTask],
    by simp [mergeTask], by simp [mergeTask], by simp [mergeTask],
    by simp [mergeTask], by simp [mergeTask], by simp [mergeTask]⟩
  · intro st hst
    simp [mergeTask, hst]
  · intro hst
    simp [mergeTask, hst]

/-- Witness for C1 at a concrete card and a concrete existing record. -/
theorem sync_merge_is_field_union_witness :
    getTask (syncFromDOM storeA [domA] false) "A" = some (mergeTask (some existingA) domA) ∧
    (mergeTask (some existingA) domA).last_result = existingA.last_result ∧
    (mergeTask (some existingA) domA).headers = existingA.headers ∧
    (mergeTask (some existingA) domA).name = domA.name := by
  have h := sync_merge_is_field_union storeA [domA] domA existingA
    (by decide) (by decide) (by decide) (by rfl)
  exact ⟨h.1, h.2.2.2.2.2.2.1 rfl, h.2.2.2.2.2.2.2.2.2.2.2.2.2.1, h.2.2.1⟩

/-! ## Claim C2 -/

/-- **C2.**  Deletion propagation: when the list-page URL carries the
`deleted` marker, reconciliation leaves in the Durable Store exactly the task
ids of the server-rendered cards (each stored task id absent from the
rendered set is deleted, cascading to its results: results of a stored task
id absent from the rendered set are removed, results of rendered ids are
kept); when the marker is absent, reconciliation never removes any task
(and leaves the results table untouched). -/
theorem sync_deletion_propagation (s : Store) (doms : List DomTask) :
    (∀ i, (∃ t ∈ (syncFromDOM s doms true).tasks, t.id = i) ↔
          (∃ d ∈ doms, d.id = i ∧ ¬ i = "")) ∧
    (∀ r ∈ s.results, (∃ t ∈ s.tasks, t.id = r.task) →
        (¬ ∃ d ∈ doms, d.id = r.task) →
        r ∉ (syncFromDOM s doms true).results) ∧
    (∀ r ∈ s.results, (∃ d ∈ doms, d.id = r.task ∧ ¬ r.task = "") →
        r ∈ (syncFromDOM s doms true).results) ∧
    (∀ t ∈ s.tasks, ∃ t' ∈ (syncFromDOM s doms false).tasks, t'.id = t.id) ∧
    (syncFromDOM s doms false).results = s.results := by
  have hT : syncFromDOM s doms true
      = deletePhase (savePhase s (syncDom doms))
          (syncDeleteIds (savePhase s (syncDom doms)) (syncDom doms)) := rfl
  have hF : syncFromDOM s doms false = savePhase s (syncDom doms) := rfl
  have hnd := nodup_syncDom doms
  refine ⟨?_, ?_, ?_, ?_, ?_⟩
  · intro i
    constructor
    · rintro ⟨t, ht, rfl⟩
      rw [hT, mem_tasks_deletePhase] at ht
      obtain ⟨hts1, hnotL⟩ := ht
      by_cases hdom : ∃ d ∈ syncDom doms, d.id = t.id
      · exact (mem_syncDom_ids doms t.id).mp hdom
      · exact absurd ((mem_syncDeleteIds _ _ t.id).mpr ⟨t, hts1, rfl, hdom⟩) hnotL
    · intro hx
      have hdom := (mem_syncDom_ids doms i).mpr hx
      have hfind : ∃ dF, (syncDom doms).find? (fun d => d.id = i) = some dF := by
        apply Option.isSome_iff_exists.mp
        rw [List.find?_isSome]
        rcases hdom with ⟨d0, hd0, hid⟩
        exact ⟨d0, hd0, by simpa using hid⟩
      rcases hfind with ⟨dF, hdF⟩
      have hget := getTask_savePhase s (syncDom doms) i hnd
      rw [hdF] at hget
      have hmem := getTask_mem _ _ _ hget
      have hid' := getTask_id _ _ _ hget
      have hnotL : i ∉ syncDeleteIds (savePhase s (syncDom doms)) (syncDom doms) := by
        intro hiL
        rcases (mem_syncDeleteIds _ _ i).mp hiL with ⟨u, hu, huid, hno⟩
        exact hno hdom
      refine ⟨mergeTask (getTask s i) dF, ?_, hid'⟩
      rw [hT, mem_tasks_deletePhase]
      exact ⟨hmem, by rw [hid']; exact hnotL⟩
  · intro r hr hstored hno
    have hnodom : ¬ ∃ d ∈ syncDom doms, d.id = r.task := by
      intro hdom
      rcases (mem_syncDom_ids doms r.task).mp hdom with ⟨d0, hd0, hid, _⟩
      exact hno ⟨d0, hd0, hid⟩
    obtain ⟨t0, hget0⟩ := getTask_isSome_of_exists s r.task hstored
    have hfindnone : (syncDom doms).find? (fun d => d.id = r.task) = none := by
      rw [List.find?_eq_none]
      intro d0 hd0
      simp only [decide_eq_true_eq]
      exact fun hid => hnodom ⟨d0, hd0, hid⟩
    have hget := getTask_savePhase s (syncDom doms) r.task hnd
    rw [hfindnone, hget0] at hget
    have hmem := getTask_mem _ _ _ hget
    have hid0 := getTask_id _ _ _ hget
    have hinL : r.task ∈ syncDeleteIds (savePhase s (syncDom doms)) (syncDom doms) :=
      (mem_syncDeleteIds _ _ r.task).mpr ⟨t0, hmem, hid0, hnodom⟩
    rw [hT]
    intro hmemout
    rw [mem_results_deletePhase] at hmemout
    exact hmemout.2 hinL
  · intro r hr hx
    rw [hT, mem_results_deletePhase]
    refine ⟨?_, ?_⟩
    · rw [results_savePhase]
      exact hr
    · intro hiL
      rcases (mem_syncDeleteIds _ _ r.task).mp hiL with ⟨u, hu, huid, hno⟩
      exact hno ((mem_syncDom_ids doms r.task).mpr hx)
  · intro t ht
    obtain ⟨t0, hget0⟩ := getTask_isSome_of_exists s t.id ⟨t, ht, rfl⟩
    have hget := getTask_savePhase s (syncDom doms) t.id hnd
    cases hfind : (syncDom doms).find? (fun d => d.id = t.id) with
    | some dF =>
        rw [hfind] at hget
        refine ⟨mergeTask (getTask s t.id) dF, ?_, getTask_id _ _ _ hget⟩
        rw [hF]
        exact getTask_mem _ _ _ hget
    | none =>
        rw [hfind, hget0] at hget
        refine ⟨t0, ?_, getTask_id _ _ _ hget⟩
        rw [hF]
        exact getTask_mem _ _ _ hget
  · rw [hF]
    exact results_savePhase s (syncDom doms)

/-- Witness for C2: the server shows `{A}`, the Durable Store holds `{A, B}`
with a result for `B`; after reconciliation with the marker the store holds
only `A` and `B`'s result is gone, while without the marker `B` survives. -/
theorem sync_deletion_propagation_witness :
    (∃ t ∈ (syncFromDOM storeAB [domA] true).tasks, t.id = "A") ∧
    (¬ ∃ t ∈ (syncFromDOM storeAB [domA] true).tasks, t.id = "B") ∧
    resultB ∉ (syncFromDOM storeAB [domA] true).results ∧
    (∃ t' ∈ (syncFromDOM storeAB [domA] false).tasks, t'.id = "B") := by
  have h := sync_deletion_propagation storeAB [domA]
  refine ⟨?_, ?_, ?_, ?_⟩
  · exact (h.1 "A").mpr ⟨domA, by decide, by decide, by decide⟩
  · intro hx
    exact absurd ((h.1 "B").mp hx) (by decide)
  · exact h.2.1 resultB (by decide) ⟨taskB, by decide, by decide⟩ (by decide)
  · have hB := h.2.2.2.1 taskB (by decide)
    simpa using hB

/-! ## Claim C3 -/

/-- **C3.**  Cascade-delete completeness and atomicity: `deleteTask id` runs
one transaction over both tables; when it commits, the task record with that
id and every result whose `task` field equals the id are removed (and nothing
else is), and when the transaction fails neither table is modified. -/
theorem deleteTask_cascade_atomic (ok : Bool) (s : Store) (id : String) :
    (ok = true →
      (∀ t ∈ (deleteTaskTx ok s id).1.tasks, ¬ t.id = id) ∧
      (∀ r ∈ (deleteTaskTx ok s id).1.results, ¬ r.task = id) ∧
      (∀ t ∈ s.tasks, ¬ t.id = id → t ∈ (deleteTaskTx ok s id).1.tasks) ∧
      (∀ r ∈ s.results, ¬ r.task = id → r ∈ (deleteTaskTx ok s id).1.results) ∧
      (deleteTaskTx ok s id).2 = true) ∧
    (ok = false →
      (deleteTaskTx ok s id).1 = s ∧ (deleteTaskTx ok s id).2 = false) := by
  cases ok
  · exact ⟨fun h => (nomatch h), fun _ => ⟨rfl, rfl⟩⟩
  · refine ⟨fun _ => ⟨?_, ?_, ?_, ?_, rfl⟩, fun h => (nomatch h)⟩
    · intro t ht
      have := (List.mem_filter.mp ht).2
      simpa using this
    · intro r hr
      have := (List.mem_filter.mp hr).2
      simpa using this
    · intro t ht hne
      exact List.mem_filter.mpr ⟨ht, by simpa using hne⟩
    · intro r hr hne
      exact List.mem_filter.mpr ⟨hr, by simpa using hne⟩

/-- Witness for C3: deleting `B` from the concrete store removes its result;
a failed transaction leaves the store intact. -/
theorem deleteTask_cascade_atomic_witness :
    (∀ r ∈ (deleteTaskTx true storeAB "B").1.results, ¬ r.task = "B") ∧
    resultB ∈ (deleteTaskTx true storeAB "A").1.results ∧
    (deleteTaskTx false storeAB "B").1 = storeAB := by
  have h1 := deleteTask_cascade_atomic true storeAB "B"
  have h2 := deleteTask_cascade_atomic true storeAB "A"
  have h3 := deleteTask_cascade_atomic false storeAB "B"
  exact ⟨(h1.1 rfl).2.1, (h2.1 rfl).2.2.2.1 resultB (by decide) (by decide), (h3.2 rfl).1⟩

/-! ## Claim C4 -/

/-- **C4 counterexample.**  The claim fails for an arbitrary engine issue
list: an issue whose `type` is outside `{error, warning, notice}` is stored
in `results` but tallied in no counter, so the three counts sum to `0` while
the stored list has length `1` — in both the run manager's and the in-memory
webservice's result constructors. -/
theorem run_count_invariant_cex :
    (¬ ((clientResultObj taskA "A" "r1" "d0" ⟨some [bogusIssue]⟩).count.error
        + (clientResultObj taskA "A" "r1" "d0" ⟨some [bogusIssue]⟩).count.warning
        + (clientResultObj taskA "A" "r1" "d0" ⟨some [bogusIssue]⟩).count.notice
        = (clientResultObj taskA "A" "r1" "d0" ⟨some [bogusIssue]⟩).results.length)) ∧
    (¬ ((transformResult "A" taskA ⟨some [bogusIssue]⟩ "r1" "d0").count.error
        + (transformResult "A" taskA ⟨some [bogusIssue]⟩ "r1" "d0").count.warning
        + (transformResult "A" taskA ⟨some [bogusIssue]⟩ "r1" "d0").count.notice
        = (transformResult "A" taskA ⟨some [bogusIssue]⟩ "r1" "d0").results.length)) := by
  decide

/-- **C4 (amended).**  Result count invariant for both run paths: each of
`count.error`, `count.warning`, `count.notice` equals the number of stored
entries of that type; and the three counts sum to the length of the stored
results list provided every entry's type is one of `error`, `warning`,
`notice` (which is all the engine ever emits). -/
theorem run_count_invariant_amended (t : Task) (taskId resultId date : String)
    (pr : Pa11yRunJson) :
    ((clientResultObj t taskId resultId date pr).count.error
        = typeCount "error" (clientResultObj t taskId resultId date pr).results) ∧
    ((clientResultObj t taskId resultId date pr).count.warning
        = typeCount "warning" (clientResultObj t taskId resultId date pr).results) ∧
    ((clientResultObj t taskId resultId date pr).count.notice
        = typeCount "notice" (clientResultObj t taskId resultId date pr).results) ∧
    ((∀ i ∈ (clientResultObj t taskId resultId date pr).results,
        i.type = "error" ∨ i.type = "warning" ∨ i.type = "notice") →
      (clientResultObj t taskId resultId date pr).count.error
        + (clientResultObj t taskId resultId date pr).count.warning
        + (clientResultObj t taskId resultId date pr).count.notice
        = (clientResultObj t taskId resultId date pr).results.length) ∧
    ((transformResult taskId t pr resultId date).count.error
        = typeCount "error" (transformResult taskId t pr resultId date).results) ∧
    ((transformResult taskId t pr resultId date).count.warning
        = typeCount "warning" (transformResult taskId t pr resultId date).results) ∧
    ((transformResult taskId t pr resultId date).count.notice
        = typeCount "notice" (transformResult taskId t pr resultId date).results) ∧
    ((∀ i ∈ (transformResult taskId t pr resultId date).results,
        i.type = "error" ∨ i.type = "warning" ∨ i.type = "notice") →
      (transformResult taskId t pr resultId date).count.error
        + (transformResult taskId t pr resultId date).count.warning
        + (transformResult taskId t pr resultId date).count.notice
        = (transformResult taskId t pr resultId date).results.length) := by
  have hca : ∀ (l : List Issue),
      (l.foldl (fun c i => bumpCount c i.type) ⟨0, 0, 0⟩)
        = ⟨typeCount "error" l, typeCount "warning" l, typeCount "notice" l⟩ := by
    intro l
    rw [foldl_bump_eq]
    simp
  cases hpr : pr.issues with
  | none =>
      refine ⟨?_, ?_, ?_, ?_, ?_, ?_, ?_, ?_⟩ <;>
        simp [clientResultObj, transformResult, countIssues, hpr, typeCount]
  | some l =>
      have hclient : clientResultObj t taskId resultId date pr =
          { id := resultId, task := taskId, url := t.url, name := t.name,
            standard := t.standard, date := date,
            count := ⟨typeCount "error" l, typeCount "warning" l, typeCount "notice" l⟩,
            results := l, ignore := t.ignore.getD [] } := by
        simp [clientResultObj, countIssues, hpr, hca l]
      have hws : transformResult taskId t pr resultId date =
          { id := resultId, task := taskId, url := t.url, name := t.name,
            standard := t.standard, date := date,
            count := ⟨typeCount "error" l, typeCount "warning" l, typeCount "notice" l⟩,
            results := l, ignore := t.ignore.getD [] } := by
        simp [transformResult, hpr, hca l, map_issue_eta]
      rw [hclient, hws]
      refine ⟨rfl, rfl, rfl, ?_, rfl, rfl, rfl, ?_⟩ <;>
        (intro h; exact typeCount_total l h)

/-- Witness for C4 (amended) at a concrete well-typed issue list
(two errors, one warning). -/
theorem run_count_invariant_witness :
    (clientResultObj taskA "A" "r1" "d0" goodBody).count.error
        = typeCount "error" (clientResultObj taskA "A" "r1" "d0" goodBody).results ∧
    (clientResultObj taskA "A" "r1" "d0" goodBody).count.error
        + (clientResultObj taskA "A" "r1" "d0" goodBody).count.warning
        + (clientResultObj taskA "A" "r1" "d0" goodBody).count.notice
        = (clientResultObj taskA "A" "r1" "d0" goodBody).results.length := by
  have h := run_count_invariant_amended taskA "A" "r1" "d0" goodBody
  exact ⟨h.1, h.2.2.2.1 (by decide)⟩

/-! ## Claim C5 -/

/-- **C5.**  Run-failure atomicity: when the `/api/run` fetch errors or
returns a non-ok status, the run manager writes no result record, performs
no reload, and shows an alert; when the task was present in the Durable
Store, the whole store (in particular the task's prior `last_result`) is
unchanged. -/
theorem run_failure_preserves_store (s : Store) (taskId : String)
    (header : Option DomHeader) (outcome : FetchOutcome) (resultId date : String)
    (hfail : outcome = .networkError ∨ ∃ st, outcome = .httpError st) :
    (runTaskClient s taskId header outcome resultId date).store.results = s.results ∧
    (runTaskClient s taskId header outcome resultId date).reloaded = false ∧
    (runTaskClient s taskId header outcome resultId date).alerted = true ∧
    (∀ t, getTask s taskId = some t →
        (runTaskClient s taskId header outcome resultId date).store = s) := by
  rcases hfail with rfl | ⟨st, rfl⟩ <;>
  · cases hget : getTask s taskId with
    | some t =>
        refine ⟨?_, ?_, ?_, ?_⟩ <;> simp [runTaskClient, hget]
    | none =>
        cases header with
        | none =>
            refine ⟨?_, ?_, ?_, ?_⟩ <;> simp [runTaskClient, hget]
        | some h =>
            by_cases hcond : ¬ h.name = "" ∧ ¬ h.url = "" ∧ ¬ h.standard = ""
            · refine ⟨?_, ?_, ?_, ?_⟩ <;> simp [runTaskClient, hget, hcond, results_saveTask]
            · refine ⟨?_, ?_, ?_, ?_⟩ <;> simp [runTaskClient, hget, hcond]

/-- Witness for C5: a concrete failing fetch for a stored task. -/
theorem run_failure_preserves_store_witness :
    (runTaskClient storeA "A" none .networkError "r1" "d0").store = storeA ∧
    (runTaskClient storeA "A" none .networkError "r1" "d0").reloaded = false ∧
    (runTaskClient storeA "A" none .networkError "r1" "d0").alerted = true := by
  have h := run_failure_preserves_store storeA "A" none .networkError "r1" "d0" (Or.inl rfl)
  exact ⟨h.2.2.2 existingA (by rfl), h.2.1, h.2.2.1⟩

/-! ## Claim C6 -/

/-- **C6.**  Import overwrite semantics: for every imported document (with
pairwise-distinct task ids, as exported documents have) and every task record
in it whose id already exists in the Durable Store, the import leaves exactly
the imported record stored under that id — a whole-record upsert, so no field
of the previously stored record survives unless it also appears in the
imported record; no field-by-field merge occurs. -/
theorem import_overwrites_existing (s : Store) (doc : DataDoc) (t old : Task)
    (hnd : (doc.tasks.map Task.id).Nodup) (ht : t ∈ doc.tasks)
    (_hold : getTask s t.id = some old) :
    getTask (importData s doc) t.id = some t := by
  have h2 : (importData s doc).tasks = (doc.tasks.foldl saveTask s).tasks := by
    show (doc.results.foldl saveResult (doc.tasks.foldl saveTask s)).tasks = _
    rw [tasks_foldl_saveResult]
  have h3 : getTask (importData s doc) t.id = getTask (doc.tasks.foldl saveTask s) t.id := by
    unfold getTask
    rw [h2]
  rw [h3, getTask_foldl_saveTask _ _ _ hnd, find?_key_of_nodup Task.id doc.tasks t hnd ht]

/-- Witness for C6: importing a record reusing id `A` over a store whose `A`
record carries `headers`, `ignore` and a `last_result` leaves exactly the
imported record (those fields do not survive). -/
theorem import_overwrites_existing_witness :
    getTask (importData storeA ⟨[importedA], []⟩) "A" = some importedA ∧
    (getTask (importData storeA ⟨[importedA], []⟩) "A").map Task.last_result = some none ∧
    getTask storeA "A" = some existingA := by
  have h := import_overwrites_existing storeA ⟨[importedA], []⟩ importedA existingA
    (by decide) (by decide) (by rfl)
  refine ⟨h, ?_, rfl⟩
  rw [show ("A" : String) = importedA.id from rfl, h]
  rfl

/-! ## Claim C7 -/

/-- **C7 counterexample.**  The claim's number-of-runs annotation is absent
when the task has one stored result: on `storeT1` (one task with a
`last_result`, one stored result, empty rendered view) the unique synthetic
card carries no run-count annotation even though the Durable Store holds one
result for the task. -/
theorem synthetic_card_cex :
    (¬ ∀ c ∈ loadPersistedTasks storeT1 [],
        c.runCount = some (getResultsByTask storeT1 c.taskId).length) ∧
    (loadPersistedTasks storeT1 []).length = 1 ∧
    (getResultsByTask storeT1 "T1").length = 1 ∧
    (buildCard storeT1 taskT1).runCount = none := by
  decide

/-- **C7 (amended).**  Synthetic-card rendering: for every Durable task id
not present in the rendered list view, reconciliation inserts exactly one
synthetic card built from the Durable record; the card shows the
`last_result`'s error/warning/notice counts when a `last_result` exists and a
`No results` marker otherwise; the number-of-runs annotation (the count of
that task's stored results) is attached exactly when more than one result is
stored. -/
theorem synthetic_card_amended (s : Store) (domIds : List String) (t : Task)
    (hnd : (s.tasks.map Task.id).Nodup) (ht : t ∈ s.tasks)
    (hmiss : ¬ domIds.contains t.id) :
    buildCard s t ∈ loadPersistedTasks s domIds ∧
    (loadPersistedTasks s domIds).countP (fun c => c.taskId = t.id) = 1 ∧
    (∀ lr, t.last_result = some lr →
        (buildCard s t).stats = some lr.count ∧
        (buildCard s t).noResults = false ∧
        (buildCard s t).runCount =
          (if 1 < (getResultsByTask s t.id).length
           then some (getResultsByTask s t.id).length else none)) ∧
    (t.last_result = none →
        (buildCard s t).stats = none ∧
        (buildCard s t).noResults = true ∧
        (buildCard s t).runCount = none) := by
  have hcardid : ∀ u : Task, (buildCard s u).taskId = u.id := by
    intro u
    cases hu : u.last_result <;> simp [buildCard, hu]
  refine ⟨?_, ?_, ?_, ?_⟩
  · exact List.mem_map_of_mem (buildCard s)
      (List.mem_filter.mpr ⟨ht, by simpa using hmiss⟩)
  · have huniq : ∀ u ∈ s.tasks, u.id = t.id → u = t := by
      intro u hu hid
      exact List.inj_on_of_nodup_map hnd hu ht hid
    have hfin : List.countP (fun u => u.id == t.id) (getTasks s) = 1 := by
      have hcnt : (s.tasks.map Task.id).count t.id = 1 :=
        List.count_eq_one_of_mem hnd (List.mem_map_of_mem Task.id ht)
      rw [List.count_eq_countP, List.countP_map] at hcnt
      exact hcnt
    unfold loadPersistedTasks
    rw [List.countP_map, List.countP_filter]
    refine Eq.trans (List.countP_congr ?_) hfin
    intro u hu
    simp only [Function.comp, hcardid u, Bool.and_eq_true, decide_eq_true_eq, beq_iff_eq]
    constructor
    · rintro ⟨h1, _⟩
      exact h1
    · intro h1
      have hut := huniq u hu h1
      subst hut
      exact ⟨rfl, by simpa using hmiss⟩
  · intro lr hlr
    refine ⟨?_, ?_, ?_⟩ <;> simp [buildCard, hlr]
  · intro hlr
    refine ⟨?_, ?_, ?_⟩ <;> simp [buildCard, hlr]

/-- Witness for C7 (amended) on the concrete single-result store. -/
theorem synthetic_card_amended_witness :
    buildCard storeT1 taskT1 ∈ loadPersistedTasks storeT1 [] ∧
    (loadPersistedTasks storeT1 []).countP (fun c => c.taskId = "T1") = 1 ∧
    (buildCard storeT1 taskT1).stats = some ⟨2, 1, 0⟩ ∧
    (buildCard storeT1 taskT1).noResults = false := by
  have h := synthetic_card_amended storeT1 [] taskT1 (by decide) (by decide) (by decide)
  have hc := h.2.2.1 { id := some "r1", date := "2025-02-02T00:00:00.000Z", count := ⟨2, 1, 0⟩ } (by rfl)
  exact ⟨h.1, h.2.1, hc.1, hc.2.1⟩

/-! ## Claim C8 -/

/-- **C8 counterexample.**  The round-trip is not exact for every trimmed
form: an actions textarea `"a\n\nb"` (whole-string trimmed, every line
trimmed) is stored as `["a", "b"]` and re-rendered as `"a\nb"` — the blank
interior line, collapsed by the `split(/[\r\n]+/)` pipeline, does not
survive the reload. -/
theorem edit_roundtrip_cex :
    (jsTrim formBlankLine.name = formBlankLine.name ∧
     jsTrim formBlankLine.url = formBlankLine.url ∧
     jsTrim formBlankLine.standard = formBlankLine.standard ∧
     jsTrim formBlankLine.timeout = formBlankLine.timeout ∧
     jsTrim formBlankLine.wait = formBlankLine.wait ∧
     jsTrim formBlankLine.actionsText = formBlankLine.actionsText ∧
     jsTrim formBlankLine.headersText = formBlankLine.headersText) ∧
    ¬ ((prepopulate (submitEdit emptyStore "t1" formBlankLine) "t1"
          formBlankLine).actionsText = formBlankLine.actionsText) := by
  decide

/-- **C8 (amended).**  Edit round-trip: for every task id and submitted edit
form whose scalar values are trimmed and whose actions / headers textareas
are fixed points of the submit-parse / prepopulate-render canonicalisation,
submitting writes the fields to the Durable Store (creating the record if
absent) and reloading pre-populates the form with exactly the submitted
values — scalar fields and textareas verbatim, and the ignore set as a set —
on any freshly rendered form carrying the same checkbox values. -/
theorem edit_roundtrip_amended (s : Store) (id : String) (f f0 : EditForm)
    (hname : jsTrim f.name = f.name) (hurl : jsTrim f.url = f.url)
    (hstd : jsTrim f.standard = f.standard)
    (htimeout : jsTrim f.timeout = f.timeout) (hwait : jsTrim f.wait = f.wait)
    (hact : joinLines (parseActions f.actionsText) = f.actionsText)
    (hhdr : renderHeaders (parseHeaders f.headersText) = f.headersText)
    (hboxes : f0.ignoreBoxes.map Prod.fst = f.ignoreBoxes.map Prod.fst) :
    (prepopulate (submitEdit s id f) id f0).name = f.name ∧
    (prepopulate (submitEdit s id f) id f0).url = f.url ∧
    (prepopulate (submitEdit s id f) id f0).standard = f.standard ∧
    (prepopulate (submitEdit s id f) id f0).timeout = f.timeout ∧
    (prepopulate (submitEdit s id f) id f0).wait = f.wait ∧
    (prepopulate (submitEdit s id f) id f0).actionsText = f.actionsText ∧
    (prepopulate (submitEdit s id f) id f0).username = f.username ∧
    (prepopulate (submitEdit s id f) id f0).password = f.password ∧
    (prepopulate (submitEdit s id f) id f0).headersText = f.headersText ∧
    (prepopulate (submitEdit s id f) id f0).hideElements = f.hideElements ∧
    (∀ v, v ∈ checkedValues (prepopulate (submitEdit s id f) id f0)
        ↔ v ∈ checkedValues f) := by
  have hbid : ((getTask s id).getD { id := id, name := "", url := "", standard := "" }).id
      = id := by
    cases hg : getTask s id with
    | none => rfl
    | some e => simpa using getTask_id s id e hg
  have hstored : getTask (submitEdit s id f) id
      = some (editTask ((getTask s id).getD
          { id := id, name := "", url := "", standard := "" }) f) := by
    unfold submitEdit
    rw [getTask_saveTask, if_pos]
    show (_ : Task).id = id
    exact hbid
  refine ⟨?_, ?_, ?_, ?_, ?_, ?_, ?_, ?_, ?_, ?_, ?_⟩
  · simp [prepopulate, hstored, editTask, hname]
  · simp [prepopulate, hstored, editTask, hurl]
  · simp [prepopulate, hstored, editTask, hstd]
  · simp [prepopulate, hstored, editTask, htimeout, strOpt_getD]
  · simp [prepopulate, hstored, editTask, hwait, strOpt_getD]
  · simp [prepopulate, hstored, editTask, hact]
  · simp [prepopulate, hstored, editTask, strOpt_getD]
  · simp [prepopulate, hstored, editTask, strOpt_getD]
  · simp [prepopulate, hstored, editTask, hhdr]
  · simp [prepopulate, hstored, editTask, strOpt_getD]
  · intro v
    have hboxes' : (prepopulate (submitEdit s id f) id f0).ignoreBoxes
        = f0.ignoreBoxes.map (fun kv => (kv.1, (checkedValues f).contains kv.1)) := by
      simp [prepopulate, hstored, editTask]
    constructor
    · intro hv
      rw [checkedValues, hboxes'] at hv
      exact ((mem_marked_boxes f0.ignoreBoxes (checkedValues f) v).mp hv).2
    · intro hv
      rw [checkedValues, hboxes']
      refine (mem_marked_boxes f0.ignoreBoxes (checkedValues f) v).mpr ⟨?_, hv⟩
      rw [hboxes]
      exact checkedValues_sub f v hv

/-- Witness for C8 (amended): a concrete canonical form round-trips exactly
through an empty store. -/
theorem edit_roundtrip_witness :
    (prepopulate (submitEdit emptyStore "t1" formCanon) "t1" formCanon).name
        = formCanon.name ∧
    (prepopulate (submitEdit emptyStore "t1" formCanon) "t1" formCanon).actionsText
        = formCanon.actionsText ∧
    (prepopulate (submitEdit emptyStore "t1" formCanon) "t1" formCanon).headersText
        = formCanon.headersText ∧
    ("rule1" ∈ checkedValues (prepopulate (submitEdit emptyStore "t1" formCanon) "t1" formCanon)
        ↔ "rule1" ∈ checkedValues formCanon) := by
  have h := edit_roundtrip_amended emptyStore "t1" formCanon formCanon
    (by decide) (by decide) (by decide) (by decide) (by decide)
    (by decide) (by decide) (by decide)
  exact ⟨h.1, h.2.2.2.2.2.1, h.2.2.2.2.2.2.2.2.1, h.2.2.2.2.2.2.2.2.2.2 "rule1"⟩

/-! ## Claim C9 -/

/-- **C9.**  Delete idempotence: the Ephemeral Store's `remove(id)` hands
`null` to its callback whether or not the task exists, afterwards neither a
task nor a result list is stored under the id, and the delete-POST endpoint
always redirects to the list page with the `deleted` marker. -/
theorem remove_idempotent_redirect (st : EphemeralStore) (id : String) :
    (taskRemove st id).2 = none ∧
    mapGet (taskRemove st id).1.tasks id = none ∧
    mapGet (taskRemove st id).1.results id = none ∧
    (delPost st id).1 = (taskRemove st id).1 ∧
    (delPost st id).2 = "/?deleted" := by
  exact ⟨rfl, mapGet_mapDelete st.tasks id, mapGet_mapDelete st.results id, rfl, rfl⟩

/-! ## Claim C10 -/

/-- **C10.**  Export omits orphaned results: `collectData` gathers results
only by iterating the stored tasks and fetching results per task id, so a
stored result whose `task` field matches no stored task's id is excluded
from the exported document (while remaining in the store, which
`collectData` does not modify) — and consequently an export/import
round-trip into a fresh store drops it. -/
theorem export_omits_orphans (s : Store) (r : Result)
    (_hr : r ∈ s.results) (horph : ∀ t ∈ s.tasks, ¬ t.id = r.task) :
    r ∉ (collectData s).results ∧
    r ∉ (importData emptyStore (collectData s)).results := by
  have h1 : r ∉ (collectData s).results := by
    intro hmem
    rcases (mem_collectData_results s r).mp hmem with ⟨t, ht, hrt⟩
    have h2 := (List.mem_filter.mp hrt).2
    have h3 : r.task = t.id := by simpa using h2
    exact horph t ht h3.symm
  refine ⟨h1, ?_⟩
  intro hmem
  have himp : r ∈ (((collectData s).results).foldl saveResult
      (((collectData s).tasks).foldl saveTask emptyStore)).results := hmem
  rcases mem_results_foldl_saveResult _ _ r himp with h4 | h4
  · rw [results_foldl_saveTask] at h4
    cases h4
  · exact h1 h4

/-- Witness for C10 at the concrete store with an orphaned result. -/
theorem export_omits_orphans_witness :
    orphanResult ∈ storeOrphan.results ∧
    orphanResult ∉ (collectData storeOrphan).results ∧
    orphanResult ∉ (importData emptyStore (collectData storeOrphan)).results := by
  have h := export_omits_orphans storeOrphan orphanResult (by decide) (by decide)
  exact ⟨by decide, h.1, h.2⟩

end Pa11y
